import Mathlib

/-!
Shallow embedding of the robyn-ml-api core (lifespan manager, registry,
body classifier, request marshaler, response coercer) together with proofs
of the behavioural claims stated about it.

Source files embedded:
  - app/core/lifespan.py  (State, BaseEvent, Lifespan)
  - app/core/router.py    (parse_endpoint_signature, parse_request_body,
                           parse_request_files, parse_response, wrapped_handler)
  - app/models/core.py    (BodyType, UploadFile)

Python dictionaries are modelled as association lists with unique keys in
insertion order (which is how CPython dicts behave); external collaborators
(pydantic validation, orjson encode/decode, the str() conversion) are taken
as abstract function parameters, since the spec treats them as black boxes.
-/

namespace RML

/-! ### Python dict primitives (insertion-ordered, unique keys) -/

/-- Dictionary lookup, `d[n]` / `n in d`: first binding of the key wins. -/
def dget {α : Type} : List (String × α) → String → Option α
  | [], _ => none
  | (k, v) :: t, n => if k = n then some v else dget t n

/-- Dictionary assignment `d[n] = v`: replaces the existing binding in place
(keeping its position, as CPython does), otherwise appends at the end. -/
def dset {α : Type} : List (String × α) → String → α → List (String × α)
  | [], n, v => [(n, v)]
  | (k, w) :: t, n, v => if k = n then (n, v) :: t else (k, w) :: dset t n v

/-! ### app/core/lifespan.py -- State (the Registry) -/

/-- Backing store of `State` (`self._data`): a Python dict from resource
name to resource instance. -/
def StateData (α : Type) : Type := List (String × α)

/-- Python `State.__getattr__`: returns `self._data[name]`, raising
`AttributeError` (modelled as `Except.error`) when the key is absent. -/
def State.getattrib {α : Type} (s : StateData α) (n : String) : Except String α :=
  match dget s n with
  | some v => Except.ok v
  | none => Except.error ("State has no attribute " ++ n)

/-- Python `State.__setattr__`: `self._data[name] = value`. -/
def State.setattrib {α : Type} (s : StateData α) (n : String) (v : α) : StateData α :=
  dset s n v

/-- Python `State.__delattr__`: `del self._data[name]`, raising
`AttributeError` when the key is absent. -/
def State.delattrib {α : Type} : StateData α → String → Except String (StateData α)
  | [], n => Except.error ("State has no attribute " ++ n)
  | (k, v) :: t, n =>
      if k = n then Except.ok t
      else (State.delattrib t n).map (fun r => (k, v) :: r)

/-- Python `State.__contains__`: `name in self._data`. -/
def State.hasName {α : Type} (s : StateData α) (n : String) : Bool :=
  (dget s n).isSome

/-- Python `State.get(name, default)`: `self._data.get(name, default)`. -/
def State.getWithDefault {α : Type} (s : StateData α) (n : String) (default : α) : α :=
  (dget s n).getD default

/-- Python `State.__iter__`: iterates over the registered names. -/
def State.names {α : Type} (s : StateData α) : List String :=
  s.map Prod.fst

/-- Python `State.clear`: `self._data.clear()`. -/
def State.clearAll {α : Type} (_ : StateData α) : StateData α := []

/-! ### app/core/lifespan.py -- events and the Lifespan manager

An event class carries its `name`, its `startup` coroutine (which may read
the shared in-progress registry it was handed via `event.state = self._state`)
and whether the class overrides `BaseEvent.shutdown`
(`has_shutdown`). The instance constructed by `event_cls()` carries no data
of its own beyond the class, so the model identifies instances with their
classes. -/

structure EventCls (α : Type) where
  name : String
  startupFn : StateData α → α
  hasShutdown : Bool

/-- Observable steps of the startup handler, in the order the code performs
them: log/begin the event startup, await its completion, `setattr` the
result into the registry, append the instance to `self._events`. -/
inductive Tag where
  | startupBegin
  | startupEnd
  | store
  | append
  deriving DecidableEq, Repr

/-- A trace entry: which step happened, for which event name. -/
def TraceEntry : Type := Tag × String

instance : DecidableEq TraceEntry :=
  inferInstanceAs (DecidableEq (Tag × String))

/-- Python `Lifespan`: the registered event classes (`self._event_classes`),
the started instances (`self._events`) and the optional registry
(`self._state`, `None` until startup runs). The `Robyn` app handle takes no
part in the claims and is omitted. -/
structure Lifespan (α : Type) where
  eventClasses : List (EventCls α)
  events : List (EventCls α)
  state : Option (StateData α)

/-- Loop body of `Lifespan.startup._startup`: for each registered class, in
order, construct the instance, hand it the in-progress registry, await its
`startup()`, `setattr` the result under the event name, then append the
instance to the active-events list.  Returns the final registry, the
appended instances and the emitted trace. -/
def startupGo {α : Type} (st : StateData α) :
    List (EventCls α) → StateData α × List (EventCls α) × List TraceEntry
  | [] => (st, [], [])
  | e :: rest =>
      let inst := e.startupFn st
      let st1 := State.setattrib st e.name inst
      let r := startupGo st1 rest
      (r.1, e :: r.2.1,
        (Tag.startupBegin, e.name) :: (Tag.startupEnd, e.name) ::
        (Tag.store, e.name) :: (Tag.append, e.name) :: r.2.2)

/-- Python `Lifespan.startup` handler `_startup`: creates a fresh `State`,
runs every registered event class in registration order, appending the
constructed instances to `self._events`. -/
def runStartup {α : Type} (l : Lifespan α) : Lifespan α × List TraceEntry :=
  let r := startupGo ([] : StateData α) l.eventClasses
  ({ l with state := some r.1, events := l.events ++ r.2.1 }, r.2.2)

/-- Loop body of `Lifespan.shutdown._shutdown`: iterate the given list (the
caller passes `self._events` reversed); an event is invoked only when its
class overrides `shutdown` and its name is still present in the registry,
and it is invoked with the instance stored under its name.  Returns the
invocation list in order, each with the instance passed to `shutdown`. -/
def shutdownGo {α : Type} (st : StateData α) : List (EventCls α) → List (String × α)
  | [] => []
  | e :: rest =>
      match e.hasShutdown, dget st e.name with
      | true, some v => (e.name, v) :: shutdownGo st rest
      | true, none => shutdownGo st rest
      | false, _ => shutdownGo st rest

/-- Python `Lifespan.shutdown` handler `_shutdown`: a no-op when
`self._state` is `None` (startup never ran); otherwise processes
`reversed(self._events)` and finally `self._state.clear()`.  The `State`
object stays allocated (only emptied), exactly as in the code. -/
def runShutdown {α : Type} (l : Lifespan α) : Lifespan α × List (String × α) :=
  match l.state with
  | none => (l, [])
  | some st => ({ l with state := some (State.clearAll st) }, shutdownGo st l.events.reverse)

/-! ### app/models/core.py and robyn-side value model -/

/-- Python `BodyType` (`app/models/core.py`). -/
inductive BodyType where
  | pydantic
  | jsonable
  | raw
  | file
  deriving DecidableEq, Repr

/-- Python `UploadFile` (`app/models/core.py`): a container around the dict
of uploaded files (field name to payload bytes, bytes modelled as
`String`). -/
structure UploadFileM where
  files : List (String × String)
  deriving DecidableEq, Repr

/-- The part of robyn's `Request` the router reads: `request.files` (empty
list models both an absent and an empty files mapping, the two cases
`if not files` treats alike). -/
structure RequestM where
  files : List (String × String)
  deriving DecidableEq, Repr

/-- Robyn `Response` as constructed by this code:
`Response(status_code=..., headers=..., description=...)`. -/
structure Response where
  status_code : Nat
  headers : List (String × String)
  description : String
  deriving DecidableEq, Repr

/-- A schema handle stored in the body config: either the class created by
`type(annotation.__name__, (annotation, Body), \x7b\x7d)` around a pydantic
model (abstract class handle `M`), or a `Body`-subclass annotation kept
as-is (abstract class handle `B`). -/
inductive ClsHandle (M B : Type) where
  | wrapped (m : M)
  | bodyCls (b : B)
  deriving DecidableEq, Repr

/-- A Python-level value sitting in the handler keyword dict: raw text or
bytes from the wire, a decoded JSON object (`JV`), a validated pydantic
instance (`MV`), an `UploadFile`, the injected request object, or anything
else (`OV`). -/
inductive PyVal (MV JV OV : Type) where
  | str (s : String)
  | bytes (b : String)
  | model (m : MV)
  | obj (o : JV)
  | upload (u : UploadFileM)
  | req (r : RequestM)
  | other (x : OV)
  deriving DecidableEq, Repr

/-- Raw wire content of a keyword value: `isinstance(raw, (str, bytes))`
succeeds exactly when this is `some`, and the validators consume the
carried text. -/
def PyVal.rawContent {MV JV OV : Type} : PyVal MV JV OV → Option String
  | .str s => some s
  | .bytes b => some b
  | _ => none

/-- A declared parameter annotation, as discriminated by
`parse_endpoint_signature`: the `UploadFile` marker, a `BaseModel`
subclass, a `Body` subclass, exactly `dict`, any other type, or no
annotation at all (`inspect.Parameter.empty`). The constructors are listed
in the priority order the code tests them. -/
inductive Ann (M B O : Type) where
  | uploadFile
  | pydantic (m : M)
  | bodyCls (b : B)
  | dictTy
  | otherType (t : O)
  | empty
  deriving DecidableEq, Repr

/-! ### app/core/router.py -/

/-- Python `parse_endpoint_signature`: walks the declared parameters in
signature order and produces the body config (name to classification and
optional schema handle, a dict in insertion order) and the set of
file-parameter names (modelled as the list of declared file parameters).
The `Annotation.pydantic` branch records the dynamically created wrapper
class; `case _ if name == "body"` catches every unrecognized annotation,
including a missing one. -/
def parse_endpoint_signature {M B O : Type} :
    List (String × Ann M B O) →
      List (String × BodyType × Option (ClsHandle M B)) × List String
  | [] => ([], [])
  | (pname, ann) :: rest =>
      let r := parse_endpoint_signature rest
      match ann with
      | .uploadFile => (r.1, pname :: r.2)
      | .pydantic m => ((pname, BodyType.pydantic, some (ClsHandle.wrapped m)) :: r.1, r.2)
      | .bodyCls b => ((pname, BodyType.jsonable, some (ClsHandle.bodyCls b)) :: r.1, r.2)
      | .dictTy => ((pname, BodyType.jsonable, none) :: r.1, r.2)
      | .otherType _ =>
          if pname = "body" then ((pname, BodyType.jsonable, none) :: r.1, r.2) else r
      | .empty =>
          if pname = "body" then ((pname, BodyType.jsonable, none) :: r.1, r.2) else r

/-- One iteration of the `parse_request_body` loop for a single config
entry: skip parameters absent from the kwargs or whose value is not
`str`/`bytes`; validate `PYDANTIC` entries through the schema library
(`model_validate_json`, abstract `validate`), decode `JSONABLE` entries
through `orjson.loads` (abstract `loads`); on failure build the 422
response the code builds (`headers=\x7b\x7d`, description the error text).
`PYDANTIC` with no stored class matches no `case` and falls through, as
does `RAW` (explicit `pass`) and `FILE`. -/
def bodyStep {MV JV M B OV : Type}
    (validate : ClsHandle M B → String → Except String MV)
    (loads : String → Except String JV)
    (entry : String × BodyType × Option (ClsHandle M B))
    (kwargs : List (String × PyVal MV JV OV)) :
    Except Response (List (String × PyVal MV JV OV)) :=
  match dget kwargs entry.1 with
  | none => Except.ok kwargs
  | some v =>
      match PyVal.rawContent v with
      | none => Except.ok kwargs
      | some raw =>
          match entry.2.1, entry.2.2 with
          | BodyType.pydantic, some mc =>
              match validate mc raw with
              | Except.ok m => Except.ok (dset kwargs entry.1 (PyVal.model m))
              | Except.error e =>
                  Except.error { status_code := 422, headers := [], description := e }
          | BodyType.pydantic, none => Except.ok kwargs
          | BodyType.jsonable, _ =>
              match loads raw with
              | Except.ok o => Except.ok (dset kwargs entry.1 (PyVal.obj o))
              | Except.error e =>
                  Except.error { status_code := 422, headers := [], description := e }
          | BodyType.raw, _ => Except.ok kwargs
          | BodyType.file, _ => Except.ok kwargs

/-- Python `parse_request_body`: iterates the body config in insertion
order, mutating the kwargs dict in place; the first validation or decode
failure returns its 422 response immediately (the kwargs as mutated so far
are returned alongside, mirroring the in-place mutation). -/
def parse_request_body {MV JV M B OV : Type}
    (validate : ClsHandle M B → String → Except String MV)
    (loads : String → Except String JV) :
    List (String × BodyType × Option (ClsHandle M B)) →
      List (String × PyVal MV JV OV) →
      Option Response × List (String × PyVal MV JV OV)
  | [], kwargs => (none, kwargs)
  | entry :: rest, kwargs =>
      match bodyStep validate loads entry kwargs with
      | Except.error r => (some r, kwargs)
      | Except.ok kw1 => parse_request_body validate loads rest kw1

/-- JSON encoding of a list of strings, as `orjson.dumps` renders it
(compact, double quotes); the names are Python identifiers, so no escaping
arises. -/
def jsonStringArray (l : List String) : String :=
  "[" ++ String.intercalate "," (l.map (fun s => "\"" ++ s ++ "\"")) ++ "]"

/-- Body of the missing-files 422 response:
`orjson.dumps(\x7b"error": "missing_files", "required": list(file_params)\x7d).decode()`. -/
def missingFilesBody (required : List String) : String :=
  "\x7b\"error\":\"missing_files\",\"required\":" ++ jsonStringArray required ++ "\x7d"

/-- Python `parse_request_files`: nothing to do without file parameters;
with file parameters but no uploaded files, the 422 missing-files response;
otherwise every file parameter receives an `UploadFile` wrapping a copy of
the whole `request.files` dict. -/
def parse_request_files {MV JV OV : Type}
    (fileParams : List String) (request : RequestM)
    (kwargs : List (String × PyVal MV JV OV)) :
    Option Response × List (String × PyVal MV JV OV) :=
  if fileParams.isEmpty then (none, kwargs)
  else if request.files.isEmpty then
    (some { status_code := 422,
            headers := [("content-type", "application/json")],
            description := missingFilesBody fileParams }, kwargs)
  else
    (none, fileParams.foldl
      (fun kw p => dset kw p (PyVal.upload { files := request.files })) kwargs)

/-- A handler return value, as discriminated by `parse_response`: an
already-built `Response`, a pydantic `BaseModel` instance, a `dict`, or
anything else. -/
inductive HandlerResult (MV JV OV : Type) where
  | response (r : Response)
  | model (m : MV)
  | obj (o : JV)
  | other (x : OV)

/-- Python `parse_response`: coerces any handler result to a `Response`.
`modelDump` is pydantic `model_dump_json(indent=4)`, `dumps` is
`orjson.dumps(...).decode()`, `strOf` is Python `str`. -/
def parse_response {MV JV OV : Type}
    (modelDump : MV → String) (dumps : JV → String) (strOf : OV → String) :
    HandlerResult MV JV OV → Response
  | .response r => r
  | .model m =>
      { status_code := 200, headers := [("content-type", "application/json")],
        description := modelDump m }
  | .obj o =>
      { status_code := 200, headers := [("content-type", "application/json")],
        description := dumps o }
  | .other x => { status_code := 200, headers := [], description := strOf x }

/-- Python `wrapped_handler` (inside `_create_method_wrapper`): body
parsing first, file parsing second (guarded by `if file_params`), then the
request object is injected when the handler declared it, the original
handler runs on the marshalled kwargs, and its result is coerced. -/
def wrapped_handler {MV JV M B OV : Type}
    (validate : ClsHandle M B → String → Except String MV)
    (loads : String → Except String JV)
    (modelDump : MV → String) (dumps : JV → String) (strOf : OV → String)
    (body_config : List (String × BodyType × Option (ClsHandle M B)))
    (file_params : List String) (has_request_param : Bool)
    (handler : List (String × PyVal MV JV OV) → HandlerResult MV JV OV)
    (request : RequestM) (h_kwargs : List (String × PyVal MV JV OV)) : Response :=
  let callHandler := fun (kw : List (String × PyVal MV JV OV)) =>
    parse_response modelDump dumps strOf
      (handler (if has_request_param then dset kw "request" (PyVal.req request) else kw))
  match parse_request_body validate loads body_config h_kwargs with
  | (some err, _) => err
  | (none, kw1) =>
      if file_params.isEmpty then callHandler kw1
      else
        match parse_request_files file_params request kw1 with
        | (some err, _) => err
        | (none, kw2) => callHandler kw2

/-! ### Trace positions -/

/-- Index of the first occurrence of `x` (length of the list when absent);
used to state ordering properties of event traces. -/
def firstIdx {β : Type} [DecidableEq β] (x : β) : List β → Nat
  | [] => 0
  | y :: t => if y = x then 0 else firstIdx x t + 1

/-- Position of each startup step inside one event's block of the trace. -/
def tagPos : Tag → Nat
  | .startupBegin => 0
  | .startupEnd => 1
  | .store => 2
  | .append => 3

/-- Startup trace of a list of event classes, one four-step block per
event in order. -/
def traceOf {α : Type} : List (EventCls α) → List TraceEntry
  | [] => []
  | e :: t =>
      (Tag.startupBegin, e.name) :: (Tag.startupEnd, e.name) ::
      (Tag.store, e.name) :: (Tag.append, e.name) :: traceOf t

/-! ### Claim statement forms -/

/-- Startup ordering property of claim C1 for events at positions `i < j`:
the `store` step of event `i` precedes the `startupBegin` step of event
`j` in the startup trace, the `store` step of event `i` precedes its own
`append` step, and after startup the registry holds an entry under event
`i`'s name. -/
def StartupOrderSpec {α : Type} (ec : List (EventCls α)) (i j : Nat)
    (hi : i < ec.length) (hj : j < ec.length) : Prop :=
  firstIdx ((Tag.store, ec[i].name) : TraceEntry)
      (runStartup (⟨ec, [], none⟩ : Lifespan α)).2 <
    firstIdx ((Tag.startupBegin, ec[j].name) : TraceEntry)
      (runStartup (⟨ec, [], none⟩ : Lifespan α)).2 ∧
  firstIdx ((Tag.store, ec[i].name) : TraceEntry)
      (runStartup (⟨ec, [], none⟩ : Lifespan α)).2 <
    firstIdx ((Tag.append, ec[i].name) : TraceEntry)
      (runStartup (⟨ec, [], none⟩ : Lifespan α)).2 ∧
  ∃ st, (runStartup (⟨ec, [], none⟩ : Lifespan α)).1.state = some st ∧
    (dget st ec[i].name).isSome = true

/-- Shutdown ordering property of claim C2 for events at positions
`i < j`: both event names are invoked during shutdown after a full
startup, the later-registered event `j` is invoked strictly before event
`i`, and every invocation receives exactly the instance the registry
stores under that name. -/
def ShutdownOrderSpec {α : Type} (ec : List (EventCls α)) (i j : Nat)
    (hi : i < ec.length) (hj : j < ec.length) : Prop :=
  ec[i].name ∈
      ((runShutdown (runStartup (⟨ec, [], none⟩ : Lifespan α)).1).2.map Prod.fst) ∧
  ec[j].name ∈
      ((runShutdown (runStartup (⟨ec, [], none⟩ : Lifespan α)).1).2.map Prod.fst) ∧
  firstIdx ec[j].name
      ((runShutdown (runStartup (⟨ec, [], none⟩ : Lifespan α)).1).2.map Prod.fst) <
    firstIdx ec[i].name
      ((runShutdown (runStartup (⟨ec, [], none⟩ : Lifespan α)).1).2.map Prod.fst) ∧
  ∃ st, (runStartup (⟨ec, [], none⟩ : Lifespan α)).1.state = some st ∧
    ∀ p ∈ (runShutdown (runStartup (⟨ec, [], none⟩ : Lifespan α)).1).2,
      dget st p.1 = some p.2

/-- Shutdown skip property of claim C8 for the event at position `k`
(one with no shutdown override): its name is never among the shutdown
invocations, yet the registry left behind by shutdown is empty. -/
def ShutdownSkipSpec {α : Type} (ec : List (EventCls α)) (k : Nat)
    (hk : k < ec.length) : Prop :=
  ec[k].name ∉
      ((runShutdown (runStartup (⟨ec, [], none⟩ : Lifespan α)).1).2.map Prod.fst) ∧
  ∃ st2, (runShutdown (runStartup (⟨ec, [], none⟩ : Lifespan α)).1).1.state = some st2 ∧
    ∀ n, dget st2 n = none

/-- Registry contract of claim C5 for a state `s`, a name `n`, a value `v`
and a default `d`: absent lookup fails without a default and yields the
default with one; `get` after `set` returns the value; `delete` after
`set` succeeds and makes lookup fail again; `delete` of an absent name
fails; `clear` empties the registry and is idempotent. -/
def StateContractSpec {α : Type} (s : StateData α) (n : String) (v d : α) : Prop :=
  (dget s n = none → (State.getattrib s n).isOk = false ∧
    State.getWithDefault s n d = d) ∧
  State.getattrib (State.setattrib s n v) n = Except.ok v ∧
  (∃ r, State.delattrib (State.setattrib s n v) n = Except.ok r ∧
    (State.getattrib r n).isOk = false) ∧
  (dget s n = none → (State.delattrib s n).isOk = false) ∧
  (∀ m, dget (State.clearAll s) m = none) ∧
  State.clearAll (State.clearAll s) = State.clearAll s

/-- Request-marshaling property of claim C3.  Success side: when
`parse_request_body` reports no error, every config entry whose incoming
keyword value was raw text/bytes has been replaced by a validated instance
(schema entries) or a decoded object (generic-JSON entries).  Failure
side: a reported error is a single 422 response, `wrapped_handler` returns
it without consulting the handler, and the config splits around a first
failing entry whose validator or decoder produced exactly the response's
message, with every later entry left untouched. -/
def MarshalSpec {MV JV M B OV : Type}
    (validate : ClsHandle M B → String → Except String MV)
    (loads : String → Except String JV)
    (cfg : List (String × BodyType × Option (ClsHandle M B)))
    (kwargs : List (String × PyVal MV JV OV)) : Prop :=
  ((parse_request_body validate loads cfg kwargs).1 = none →
    ∀ e ∈ cfg, ∀ v, dget kwargs e.1 = some v → PyVal.rawContent v ≠ none →
      (e.2.1 = BodyType.pydantic →
        ∃ m, dget (parse_request_body validate loads cfg kwargs).2 e.1 =
          some (PyVal.model m)) ∧
      (e.2.1 = BodyType.jsonable →
        ∃ o, dget (parse_request_body validate loads cfg kwargs).2 e.1 =
          some (PyVal.obj o))) ∧
  (∀ r kwf, parse_request_body validate loads cfg kwargs = (some r, kwf) →
    r.status_code = 422 ∧
    (∀ (modelDump : MV → String) (dumps : JV → String) (strOf : OV → String)
       (file_params : List String) (has_request_param : Bool)
       (handler : List (String × PyVal MV JV OV) → HandlerResult MV JV OV)
       (request : RequestM),
      wrapped_handler validate loads modelDump dumps strOf cfg file_params
        has_request_param handler request kwargs = r) ∧
    ∃ pre e post v s, cfg = pre ++ e :: post ∧ dget kwargs e.1 = some v ∧
      PyVal.rawContent v = some s ∧
      ((∃ mc0, e.2.1 = BodyType.pydantic ∧ e.2.2 = some mc0 ∧
          validate mc0 s = Except.error r.description) ∨
       (e.2.1 = BodyType.jsonable ∧ loads s = Except.error r.description)) ∧
      ∀ e2 ∈ post, dget kwf e2.1 = dget kwargs e2.1)

/-- Missing-files property of claim C7: with declared file parameters and
no uploaded files, `parse_request_files` produces exactly the 422
missing-files response (JSON content type, body naming the required file
parameters), leaves the kwargs untouched, and `wrapped_handler` returns
that response without invoking the handler whenever body parsing
succeeded. -/
def FileMissingSpec {MV JV OV : Type} (fileParams : List String)
    (request : RequestM) (kwargs : List (String × PyVal MV JV OV)) : Prop :=
  ∃ r, parse_request_files fileParams request kwargs = (some r, kwargs) ∧
    r.status_code = 422 ∧
    r.headers = [("content-type", "application/json")] ∧
    r.description = missingFilesBody fileParams ∧
    ∀ (M B : Type) (validate : ClsHandle M B → String → Except String MV)
      (loads : String → Except String JV)
      (modelDump : MV → String) (dumps : JV → String) (strOf : OV → String)
      (cfg : List (String × BodyType × Option (ClsHandle M B)))
      (has_request_param : Bool)
      (handler : List (String × PyVal MV JV OV) → HandlerResult MV JV OV)
      (kw1 : List (String × PyVal MV JV OV)),
      parse_request_body validate loads cfg kwargs = (none, kw1) →
      wrapped_handler validate loads modelDump dumps strOf cfg fileParams
        has_request_param handler request kwargs = r

/-- File-binding property of claim C10: with declared file parameters and
at least one uploaded file, `parse_request_files` reports no error and
binds every file parameter to an `UploadFile` wrapping the whole uploaded
file mapping. -/
def FileBindSpec {MV JV OV : Type} (fileParams : List String)
    (request : RequestM) (kwargs : List (String × PyVal MV JV OV)) : Prop :=
  ∃ kw2, parse_request_files fileParams request kwargs = (none, kw2) ∧
    ∀ p ∈ fileParams, dget kw2 p = some (PyVal.upload { files := request.files })

/-! ### Concrete fixtures used by the witnesses -/

/-- A first sample event: produces the resource `1`, overrides shutdown. -/
def evA : EventCls Nat :=
  { name := "alpha", startupFn := fun _ => 1, hasShutdown := true }

/-- A second sample event: reads the in-progress registry, overrides
shutdown. -/
def evB : EventCls Nat :=
  { name := "beta", startupFn := fun st => (dget st "alpha").getD 0 + 1,
    hasShutdown := true }

/-- A third sample event with no shutdown override. -/
def evC : EventCls Nat :=
  { name := "gamma", startupFn := fun _ => 3, hasShutdown := false }

/-! ### Dictionary lemmas -/

theorem dget_dset {α : Type} (s : List (String × α)) (n m : String) (v : α) :
    dget (dset s n v) m = if n = m then some v else dget s m := by
  induction s with
  | nil => simp [dget, dset]
  | cons hd t ih =>
      obtain ⟨k, w⟩ := hd
      by_cases hk : k = n
      · subst hk
        by_cases hm : k = m <;> simp [dset, dget, hm]
      · simp only [dset, if_neg hk, dget]
        by_cases hm : k = m
        · have hnm : ¬ n = m := fun h => hk (hm.trans h.symm)
          simp [hm, hnm]
        · simp [hm, ih]

theorem dget_isSome_iff_mem {α : Type} (s : List (String × α)) (n : String) :
    (dget s n).isSome = true ↔ n ∈ s.map Prod.fst := by
  induction s with
  | nil => simp [dget]
  | cons hd t ih =>
      obtain ⟨k, w⟩ := hd
      by_cases hk : k = n
      · subst hk
        simp [dget]
      · simp only [dget, if_neg hk, List.map_cons, List.mem_cons]
        rw [ih]
        constructor
        · exact fun h => Or.inr h
        · rintro (h | h)
          · exact absurd h.symm hk
          · exact h

theorem dget_eq_none_of_not_mem {α : Type} (s : List (String × α)) (n : String)
    (h : n ∉ s.map Prod.fst) : dget s n = none := by
  cases hv : dget s n with
  | none => rfl
  | some v =>
      exact absurd ((dget_isSome_iff_mem s n).mp (by simp [hv])) h

theorem mem_keys_dset {α : Type} (s : List (String × α)) (n m : String) (v : α)
    (h : m ∈ (dset s n v).map Prod.fst) : m = n ∨ m ∈ s.map Prod.fst := by
  induction s with
  | nil => simpa [dset] using h
  | cons hd t ih =>
      obtain ⟨k, w⟩ := hd
      by_cases hk : k = n
      · subst hk
        simpa [dset] using h
      · simp only [dset, if_neg hk, List.map_cons, List.mem_cons] at h
        rcases h with h | h
        · exact Or.inr (by simp [h])
        · rcases ih h with h1 | h1
          · exact Or.inl h1
          · exact Or.inr (by simp [h1])

theorem nodup_keys_dset {α : Type} (s : List (String × α)) (n : String) (v : α)
    (h : (s.map Prod.fst).Nodup) : ((dset s n v).map Prod.fst).Nodup := by
  induction s with
  | nil => simp [dset]
  | cons hd t ih =>
      obtain ⟨k, w⟩ := hd
      simp only [List.map_cons, List.nodup_cons] at h
      by_cases hk : k = n
      · subst hk
        simpa [dset] using h
      · simp only [dset, if_neg hk, List.map_cons, List.nodup_cons]
        refine ⟨fun hmem => ?_, ih h.2⟩
        rcases mem_keys_dset t n k v hmem with h1 | h1
        · exact hk h1
        · exact h.1 h1

/-! ### State (Registry) lemmas -/

theorem State.delattrib_ok_dget {α : Type} (s : StateData α) (n : String)
    (hnd : (s.map Prod.fst).Nodup) :
    ∀ r, State.delattrib s n = Except.ok r → dget r n = none := by
  induction s with
  | nil => intro r hr; simp [State.delattrib] at hr
  | cons hd t ih =>
      obtain ⟨k, w⟩ := hd
      intro r hr
      simp only [List.map_cons, List.nodup_cons] at hnd
      by_cases hk : k = n
      · subst hk
        simp only [State.delattrib, if_true, eq_self_iff_true, Except.ok.injEq] at hr
        subst hr
        exact dget_eq_none_of_not_mem t k hnd.1
      · simp only [State.delattrib, if_neg hk] at hr
        cases hrec : State.delattrib t n with
        | error e => rw [hrec] at hr; simp [Except.map] at hr
        | ok r0 =>
            rw [hrec] at hr
            simp only [Except.map] at hr
            injection hr with h2
            subst h2
            simp only [dget, if_neg hk]
            exact ih hnd.2 r0 hrec

theorem State.delattrib_absent {α : Type} (s : StateData α) (n : String)
    (h : dget s n = none) : (State.delattrib s n).isOk = false := by
  induction s with
  | nil => simp [State.delattrib, Except.isOk, Except.toBool]
  | cons hd t ih =>
      obtain ⟨k, w⟩ := hd
      by_cases hk : k = n
      · subst hk
        simp [dget] at h
      · simp only [dget, if_neg hk] at h
        simp only [State.delattrib, if_neg hk]
        cases hrec : State.delattrib t n with
        | error e => simp [hrec, Except.map, Except.isOk, Except.toBool]
        | ok r0 =>
            have h1 := ih h
            rw [hrec] at h1
            simp [Except.isOk, Except.toBool] at h1

theorem State.delattrib_present {α : Type} (s : StateData α) (n : String) (v : α)
    (h : dget s n = some v) : ∃ r, State.delattrib s n = Except.ok r := by
  induction s with
  | nil => simp [dget] at h
  | cons hd t ih =>
      obtain ⟨k, w⟩ := hd
      by_cases hk : k = n
      · subst hk
        exact ⟨t, by simp [State.delattrib]⟩
      · simp only [dget, if_neg hk] at h
        obtain ⟨r0, hr0⟩ := ih h
        exact ⟨(k, w) :: r0, by simp [State.delattrib, if_neg hk, hr0, Except.map]⟩

/-! ### Trace position lemmas -/

theorem startupGo_trace {α : Type} (ec : List (EventCls α)) :
    ∀ st : StateData α, (startupGo st ec).2.2 = traceOf ec := by
  induction ec with
  | nil => intro st; rfl
  | cons e rest ih => intro st; simp [startupGo, traceOf, ih]

theorem startupGo_events {α : Type} (ec : List (EventCls α)) :
    ∀ st : StateData α, (startupGo st ec).2.1 = ec := by
  induction ec with
  | nil => intro st; rfl
  | cons e rest ih => intro st; simp [startupGo, ih]

theorem startupGo_isSome_mono {α : Type} (ec : List (EventCls α)) :
    ∀ (st : StateData α) (n : String), (dget st n).isSome = true →
      (dget (startupGo st ec).1 n).isSome = true := by
  induction ec with
  | nil => intro st n h; exact h
  | cons e rest ih =>
      intro st n h
      simp only [startupGo]
      refine ih _ n ?_
      rw [State.setattrib, dget_dset]
      by_cases he : e.name = n <;> simp [he, h]

theorem startupGo_isSome_of_mem {α : Type} (ec : List (EventCls α)) :
    ∀ (st : StateData α) (e : EventCls α), e ∈ ec →
      (dget (startupGo st ec).1 e.name).isSome = true := by
  induction ec with
  | nil => intro st e he; simp at he
  | cons e0 rest ih =>
      intro st e he
      rcases List.mem_cons.mp he with h | h
      · subst h
        simp only [startupGo]
        refine startupGo_isSome_mono rest _ e.name ?_
        rw [State.setattrib, dget_dset]
        simp
      · exact ih _ e h

theorem firstIdx_traceOf {α : Type} (ec : List (EventCls α)) :
    (ec.map EventCls.name).Nodup →
      ∀ (i : Nat) (hi : i < ec.length) (t : Tag),
        firstIdx (t, ec[i].name) (traceOf ec) = 4 * i + tagPos t := by
  induction ec with
  | nil => intro _ i hi; exact absurd hi (by simp)
  | cons e rest ih =>
      intro hnd i hi t
      simp only [List.map_cons, List.nodup_cons] at hnd
      cases i with
      | zero =>
          simp only [List.getElem_cons_zero, traceOf]
          cases t <;> simp [firstIdx, tagPos]
      | succ k =>
          have hk : k < rest.length := by simpa using hi
          have hne : rest[k].name ≠ e.name := by
            intro h
            exact hnd.1 (h ▸ List.mem_map_of_mem EventCls.name (List.getElem_mem hk))
          have step : ∀ (tg : Tag) (l : List TraceEntry),
              firstIdx ((t, rest[k].name) : TraceEntry) ((tg, e.name) :: l) =
                firstIdx ((t, rest[k].name) : TraceEntry) l + 1 := by
            intro tg l
            rw [firstIdx, if_neg]
            intro hc
            injection hc with h1 h2
            exact hne h2.symm
          simp only [List.getElem_cons_succ, traceOf]
          rw [step, step, step, step, ih hnd.2 k hk t]
          omega

/-! ### Shutdown loop lemmas -/

theorem shutdownGo_instances {α : Type} (st : StateData α) (evl : List (EventCls α)) :
    ∀ p ∈ shutdownGo st evl, dget st p.1 = some p.2 := by
  induction evl with
  | nil => intro p hp; simp [shutdownGo] at hp
  | cons e rest ih =>
      intro p hp
      cases hs : e.hasShutdown <;> cases hd : dget st e.name <;>
        simp only [shutdownGo, hs, hd] at hp
      · exact ih p hp
      · exact ih p hp
      · exact ih p hp
      · rcases List.mem_cons.mp hp with h | h
        · subst h; exact hd
        · exact ih p h

theorem shutdownGo_name_mem {α : Type} (st : StateData α) (evl : List (EventCls α)) :
    ∀ n ∈ (shutdownGo st evl).map Prod.fst,
      ∃ e, e ∈ evl ∧ e.name = n ∧ e.hasShutdown = true := by
  induction evl with
  | nil => intro n hn; simp [shutdownGo] at hn
  | cons e rest ih =>
      intro n hn
      cases hs : e.hasShutdown <;> cases hd : dget st e.name <;>
        simp only [shutdownGo, hs, hd] at hn
      · obtain ⟨e1, he1, hn1, hs1⟩ := ih n hn
        exact ⟨e1, List.mem_cons_of_mem e he1, hn1, hs1⟩
      · obtain ⟨e1, he1, hn1, hs1⟩ := ih n hn
        exact ⟨e1, List.mem_cons_of_mem e he1, hn1, hs1⟩
      · obtain ⟨e1, he1, hn1, hs1⟩ := ih n hn
        exact ⟨e1, List.mem_cons_of_mem e he1, hn1, hs1⟩
      · simp only [List.map_cons, List.mem_cons] at hn
        rcases hn with h | h
        · exact ⟨e, List.mem_cons_self e rest, h.symm, hs⟩
        · obtain ⟨e1, he1, hn1, hs1⟩ := ih n h
          exact ⟨e1, List.mem_cons_of_mem e he1, hn1, hs1⟩

theorem shutdownGo_empty_state {α : Type} (evl : List (EventCls α)) :
    shutdownGo ([] : StateData α) evl = [] := by
  induction evl with
  | nil => rfl
  | cons e rest ih =>
      cases hs : e.hasShutdown <;> simp [shutdownGo, hs, dget, ih]

theorem shutdownGo_pass_mem {α : Type} (st : StateData α) (evl : List (EventCls α)) :
    ∀ e ∈ evl, e.hasShutdown = true → (dget st e.name).isSome = true →
      e.name ∈ (shutdownGo st evl).map Prod.fst := by
  induction evl with
  | nil => intro e he; simp at he
  | cons e0 rest ih =>
      intro e he hs hd
      rcases List.mem_cons.mp he with h | h
      · subst h
        obtain ⟨v, hv⟩ := Option.isSome_iff_exists.mp hd
        simp [shutdownGo, hs, hv]
      · cases hs0 : e0.hasShutdown <;> cases hd0 : dget st e0.name <;>
          simp only [shutdownGo, hs0, hd0]
        · exact ih e h hs hd
        · exact ih e h hs hd
        · exact ih e h hs hd
        · simp only [List.map_cons, List.mem_cons]
          exact Or.inr (ih e h hs hd)

theorem shutdownGo_order {α : Type} (st : StateData α) (evl : List (EventCls α)) :
    (evl.map EventCls.name).Nodup →
    ∀ (k1 k2 : Nat) (h1 : k1 < evl.length) (h2 : k2 < evl.length), k1 < k2 →
      evl[k1].hasShutdown = true → (dget st evl[k1].name).isSome = true →
      firstIdx evl[k1].name ((shutdownGo st evl).map Prod.fst) <
        firstIdx evl[k2].name ((shutdownGo st evl).map Prod.fst) := by
  induction evl with
  | nil => intro _ k1 k2 h1; exact absurd h1 (by simp)
  | cons e rest ih =>
      intro hnd k1 k2 h1 h2 hlt hs1 hd1
      simp only [List.map_cons, List.nodup_cons] at hnd
      cases k2 with
      | zero => exact absurd hlt (by omega)
      | succ m =>
          have hm : m < rest.length := by simpa using h2
          have hmne : ¬ (e.name = rest[m].name) := by
            intro h
            exact hnd.1 (h.symm ▸ List.mem_map_of_mem EventCls.name (List.getElem_mem hm))
          cases k1 with
          | zero =>
              simp only [List.getElem_cons_zero] at hs1 hd1
              obtain ⟨v, hv⟩ := Option.isSome_iff_exists.mp hd1
              simp only [shutdownGo, hs1, hv, List.map_cons, List.getElem_cons_zero,
                List.getElem_cons_succ, firstIdx]
              rw [if_pos trivial, if_neg hmne]
              omega
          | succ j =>
              have hj : j < rest.length := by simpa using h1
              have hjne : ¬ (e.name = rest[j].name) := by
                intro h
                exact hnd.1 (h.symm ▸ List.mem_map_of_mem EventCls.name (List.getElem_mem hj))
              simp only [List.getElem_cons_succ] at hs1 hd1 ⊢
              have hrec := ih hnd.2 j m hj hm (by omega) hs1 hd1
              cases hs0 : e.hasShutdown <;> cases hd0 : dget st e.name <;>
                simp only [shutdownGo, hs0, hd0]
              · exact hrec
              · exact hrec
              · exact hrec
              · simp only [List.map_cons, firstIdx]
                rw [if_neg hjne, if_neg hmne]
                omega

/-! ### Claim theorems: lifecycle -/

/-- C1: for Events registered in a given order with distinct names, the
startup handler stores event `i`'s startup result into the Registry
strictly before event `j`'s startup begins (for `i < j`), appends each
instance to the active-events list only after its result is stored, and
the Registry indeed holds an entry under event `i`'s name afterwards. -/
theorem C1_startup_order {α : Type} (ec : List (EventCls α))
    (hnd : (ec.map EventCls.name).Nodup) (i j : Nat)
    (hi : i < ec.length) (hj : j < ec.length) (hij : i < j) :
    StartupOrderSpec ec i j hi hj := by
  have htr : (runStartup (⟨ec, [], none⟩ : Lifespan α)).2 = traceOf ec := by
    simp [runStartup, startupGo_trace]
  refine ⟨?_, ?_, ?_⟩
  · rw [htr, firstIdx_traceOf ec hnd i hi Tag.store,
      firstIdx_traceOf ec hnd j hj Tag.startupBegin]
    simp only [tagPos]
    omega
  · rw [htr, firstIdx_traceOf ec hnd i hi Tag.store,
      firstIdx_traceOf ec hnd i hi Tag.append]
    simp only [tagPos]
    omega
  · exact ⟨(startupGo ([] : StateData α) ec).1, by simp [runStartup],
      startupGo_isSome_of_mem ec ([] : StateData α) ec[i] (List.getElem_mem hi)⟩

/-- C1 witness: the property instantiated at two concrete events. -/
theorem C1_startup_order_witness : StartupOrderSpec [evA, evB] 0 1 (by decide) (by decide) :=
  C1_startup_order [evA, evB] (by decide) 0 1 (by decide) (by decide) (by decide)

/-- C2: after a full startup of distinct-named Events, the shutdown
handler invokes shutdown in exact reverse registration order — for events
at positions `i < j` that both override shutdown, event `j` is invoked
strictly before event `i` — and each invocation is passed the instance
stored under that event's name. -/
theorem C2_shutdown_reverse_order {α : Type} (ec : List (EventCls α))
    (hnd : (ec.map EventCls.name).Nodup) (i j : Nat)
    (hi : i < ec.length) (hj : j < ec.length) (hij : i < j)
    (hA : ec[i].hasShutdown = true) (hB : ec[j].hasShutdown = true) :
    ShutdownOrderSpec ec i j hi hj := by
  have key : (runShutdown (runStartup (⟨ec, [], none⟩ : Lifespan α)).1).2 =
      shutdownGo (startupGo ([] : StateData α) ec).1 ec.reverse := by
    simp [runStartup, runShutdown, startupGo_events]
  have hndrev : (ec.reverse.map EventCls.name).Nodup := by
    rw [List.map_reverse]
    exact List.nodup_reverse.mpr hnd
  have hmemI : (dget (startupGo ([] : StateData α) ec).1 ec[i].name).isSome = true :=
    startupGo_isSome_of_mem ec ([] : StateData α) ec[i] (List.getElem_mem hi)
  have hmemJ : (dget (startupGo ([] : StateData α) ec).1 ec[j].name).isSome = true :=
    startupGo_isSome_of_mem ec ([] : StateData α) ec[j] (List.getElem_mem hj)
  refine ⟨?_, ?_, ?_, ?_⟩
  · rw [key]
    exact shutdownGo_pass_mem _ ec.reverse ec[i] (List.mem_reverse.mpr (List.getElem_mem hi))
      hA hmemI
  · rw [key]
    exact shutdownGo_pass_mem _ ec.reverse ec[j] (List.mem_reverse.mpr (List.getElem_mem hj))
      hB hmemJ
  · rw [key]
    have hk1 : ec.length - 1 - j < ec.reverse.length := by
      rw [List.length_reverse]
      omega
    have hk2 : ec.length - 1 - i < ec.reverse.length := by
      rw [List.length_reverse]
      omega
    have hrevj : ec.reverse[ec.length - 1 - j] = ec[j] := by
      rw [List.getElem_reverse]
      congr 1
      omega
    have hrevi : ec.reverse[ec.length - 1 - i] = ec[i] := by
      rw [List.getElem_reverse]
      congr 1
      omega
    have horder := shutdownGo_order (startupGo ([] : StateData α) ec).1 ec.reverse hndrev
      (ec.length - 1 - j) (ec.length - 1 - i) hk1 hk2 (by omega)
      (by rw [hrevj]; exact hB) (by rw [hrevj]; exact hmemJ)
    rw [hrevj, hrevi] at horder
    exact horder
  · exact ⟨(startupGo ([] : StateData α) ec).1, by simp [runStartup],
      fun p hp => shutdownGo_instances _ ec.reverse p (by rw [key] at hp; exact hp)⟩

/-- C2 witness: the property instantiated at two concrete events. -/
theorem C2_shutdown_reverse_order_witness :
    ShutdownOrderSpec [evA, evB] 0 1 (by decide) (by decide) :=
  C2_shutdown_reverse_order [evA, evB] (by decide) 0 1 (by decide) (by decide)
    (by decide) (by decide) (by decide)

/-- C8: an Event that does not override shutdown is never invoked during
shutdown, yet the registry left behind by shutdown is empty, so its
resource name is absent afterwards. -/
theorem C8_shutdown_skip {α : Type} (ec : List (EventCls α))
    (hnd : (ec.map EventCls.name).Nodup) (k : Nat) (hk : k < ec.length)
    (hns : ec[k].hasShutdown = false) : ShutdownSkipSpec ec k hk := by
  have key : (runShutdown (runStartup (⟨ec, [], none⟩ : Lifespan α)).1).2 =
      shutdownGo (startupGo ([] : StateData α) ec).1 ec.reverse := by
    simp [runStartup, runShutdown, startupGo_events]
  refine ⟨?_, ?_⟩
  · rw [key]
    intro hmem
    obtain ⟨e1, he1, hname, hshut⟩ := shutdownGo_name_mem _ ec.reverse _ hmem
    have he1m : e1 ∈ ec := List.mem_reverse.mp he1
    have : e1 = ec[k] :=
      List.inj_on_of_nodup_map hnd he1m (List.getElem_mem hk) hname
    rw [this, hns] at hshut
    exact Bool.false_ne_true hshut
  · refine ⟨[], ?_, fun n => rfl⟩
    simp [runStartup, runShutdown, State.clearAll]

/-- C8 witness: the property instantiated with a shutdown-less event
registered between two ordinary ones. -/
theorem C8_shutdown_skip_witness : ShutdownSkipSpec [evA, evC, evB] 1 (by decide) :=
  C8_shutdown_skip [evA, evC, evB] (by decide) 1 (by decide) (by decide)

/-- C9: the shutdown handler is a no-op before any startup (no state, no
invocations, nothing changed), and running it a second time after a
completed shutdown performs no invocations and leaves the cleared (empty
but still present) registry in place. -/
theorem C9_shutdown_noop {α : Type} (ec evs : List (EventCls α)) (st : StateData α) :
    runShutdown (⟨ec, evs, none⟩ : Lifespan α) = (⟨ec, evs, none⟩, []) ∧
    (runShutdown (runShutdown (⟨ec, evs, some st⟩ : Lifespan α)).1).2 = [] ∧
    (runShutdown (runShutdown (⟨ec, evs, some st⟩ : Lifespan α)).1).1.state =
      some ([] : StateData α) := by
  refine ⟨rfl, ?_, ?_⟩
  · simp [runShutdown, State.clearAll, shutdownGo_empty_state]
  · simp [runShutdown, State.clearAll]

/-- C5: the Registry contract, under the dict invariant that stored keys
are unique. -/
theorem C5_state_contract {α : Type} (s : StateData α) (n : String) (v d : α)
    (hnd : (s.map Prod.fst).Nodup) : StateContractSpec s n v d := by
  refine ⟨?_, ?_, ?_, ?_, fun m => rfl, rfl⟩
  · intro habs
    constructor
    · simp [State.getattrib, habs, Except.isOk, Except.toBool]
    · simp [State.getWithDefault, habs]
  · simp [State.getattrib, State.setattrib, dget_dset]
  · have hpres : dget (State.setattrib s n v) n = some v := by
      simp [State.setattrib, dget_dset]
    obtain ⟨r, hr⟩ := State.delattrib_present (State.setattrib s n v) n v hpres
    refine ⟨r, hr, ?_⟩
    have hnone : dget r n = none :=
      State.delattrib_ok_dget (State.setattrib s n v) n
        (nodup_keys_dset s n v hnd) r hr
    simp [State.getattrib, hnone, Except.isOk, Except.toBool]
  · exact State.delattrib_absent s n
  -- clear parts discharged positionally above

/-- C5 witness: the contract instantiated at a one-entry registry. -/
theorem C5_state_contract_witness :
    StateContractSpec [("x", (1 : Nat))] "y" 2 7 :=
  C5_state_contract [("x", (1 : Nat))] "y" 2 7 (by decide)

/-! ### Request-body marshaling lemmas -/

theorem bodyStep_ok_cases {MV JV M B OV : Type}
    (validate : ClsHandle M B → String → Except String MV)
    (loads : String → Except String JV)
    (pname : String) (bt : BodyType) (mc : Option (ClsHandle M B))
    (kw kw1 : List (String × PyVal MV JV OV))
    (h : bodyStep validate loads (pname, bt, mc) kw = Except.ok kw1) :
    kw1 = kw ∨ ∃ w, kw1 = dset kw pname w := by
  cases hv : dget kw pname with
  | none =>
      simp only [bodyStep, hv, Except.ok.injEq] at h
      exact Or.inl h.symm
  | some v =>
      cases hr : PyVal.rawContent v with
      | none =>
          simp only [bodyStep, hv, hr, Except.ok.injEq] at h
          exact Or.inl h.symm
      | some s =>
          cases bt with
          | pydantic =>
              cases mc with
              | none =>
                  simp only [bodyStep, hv, hr, Except.ok.injEq] at h
                  exact Or.inl h.symm
              | some mc0 =>
                  cases hval : validate mc0 s with
                  | ok m =>
                      simp only [bodyStep, hv, hr, hval, Except.ok.injEq] at h
                      exact Or.inr ⟨PyVal.model m, h.symm⟩
                  | error e =>
                      simp only [bodyStep, hv, hr, hval] at h
                      exact Except.noConfusion h
          | jsonable =>
              cases hl : loads s with
              | ok o =>
                  simp only [bodyStep, hv, hr, hl, Except.ok.injEq] at h
                  exact Or.inr ⟨PyVal.obj o, h.symm⟩
              | error e =>
                  simp only [bodyStep, hv, hr, hl] at h
                  exact Except.noConfusion h
          | raw =>
              simp only [bodyStep, hv, hr, Except.ok.injEq] at h
              exact Or.inl h.symm
          | file =>
              simp only [bodyStep, hv, hr, Except.ok.injEq] at h
              exact Or.inl h.symm

theorem bodyStep_ok_dget_ne {MV JV M B OV : Type}
    (validate : ClsHandle M B → String → Except String MV)
    (loads : String → Except String JV)
    (pname : String) (bt : BodyType) (mc : Option (ClsHandle M B))
    (kw kw1 : List (String × PyVal MV JV OV))
    (h : bodyStep validate loads (pname, bt, mc) kw = Except.ok kw1) :
    ∀ m, m ≠ pname → dget kw1 m = dget kw m := by
  intro m hm
  rcases bodyStep_ok_cases validate loads pname bt mc kw kw1 h with h1 | ⟨w, h1⟩
  · rw [h1]
  · rw [h1, dget_dset, if_neg (fun hc => hm hc.symm)]

theorem bodyStep_error_shape {MV JV M B OV : Type}
    (validate : ClsHandle M B → String → Except String MV)
    (loads : String → Except String JV)
    (pname : String) (bt : BodyType) (mc : Option (ClsHandle M B))
    (kw : List (String × PyVal MV JV OV)) (r : Response)
    (h : bodyStep validate loads (pname, bt, mc) kw = Except.error r) :
    r.status_code = 422 ∧ r.headers = [] ∧
    ∃ v s, dget kw pname = some v ∧ PyVal.rawContent v = some s ∧
      ((∃ mc0, bt = BodyType.pydantic ∧ mc = some mc0 ∧
          validate mc0 s = Except.error r.description) ∨
       (bt = BodyType.jsonable ∧ loads s = Except.error r.description)) := by
  cases hv : dget kw pname with
  | none =>
      simp only [bodyStep, hv] at h
      exact Except.noConfusion h
  | some v =>
      cases hr : PyVal.rawContent v with
      | none =>
          simp only [bodyStep, hv, hr] at h
          exact Except.noConfusion h
      | some s =>
          cases bt with
          | pydantic =>
              cases mc with
              | none =>
                  simp only [bodyStep, hv, hr] at h
                  exact Except.noConfusion h
              | some mc0 =>
                  cases hval : validate mc0 s with
                  | ok m =>
                      simp only [bodyStep, hv, hr, hval] at h
                      exact Except.noConfusion h
                  | error e =>
                      simp only [bodyStep, hv, hr, hval, Except.error.injEq] at h
                      subst h
                      exact ⟨rfl, rfl, v, s, rfl, hr,
                        Or.inl ⟨mc0, rfl, rfl, by rw [hval]⟩⟩
          | jsonable =>
              cases hl : loads s with
              | ok o =>
                  simp only [bodyStep, hv, hr, hl] at h
                  exact Except.noConfusion h
              | error e =>
                  simp only [bodyStep, hv, hr, hl, Except.error.injEq] at h
                  subst h
                  exact ⟨rfl, rfl, v, s, rfl, hr, Or.inr ⟨rfl, by rw [hl]⟩⟩
          | raw =>
              simp only [bodyStep, hv, hr] at h
              exact Except.noConfusion h
          | file =>
              simp only [bodyStep, hv, hr] at h
              exact Except.noConfusion h

theorem bodyStep_decoded {MV JV M B OV : Type}
    (validate : ClsHandle M B → String → Except String MV)
    (loads : String → Except String JV)
    (pname : String) (bt : BodyType) (mc : Option (ClsHandle M B))
    (kw kw1 : List (String × PyVal MV JV OV))
    (h : bodyStep validate loads (pname, bt, mc) kw = Except.ok kw1)
    (v : PyVal MV JV OV) (hv : dget kw pname = some v)
    (hraw : PyVal.rawContent v ≠ none) :
    (bt = BodyType.pydantic → mc ≠ none →
      ∃ m, dget kw1 pname = some (PyVal.model m)) ∧
    (bt = BodyType.jsonable → ∃ o, dget kw1 pname = some (PyVal.obj o)) := by
  cases hr : PyVal.rawContent v with
  | none => exact absurd hr hraw
  | some s =>
      cases bt with
      | pydantic =>
          refine ⟨fun _ hmc => ?_, fun hbt => by simp at hbt⟩
          cases mc with
          | none => exact absurd rfl hmc
          | some mc0 =>
              cases hval : validate mc0 s with
              | ok m =>
                  simp only [bodyStep, hv, hr, hval, Except.ok.injEq] at h
                  subst h
                  exact ⟨m, by rw [dget_dset, if_pos rfl]⟩
              | error e =>
                  simp only [bodyStep, hv, hr, hval] at h
                  exact Except.noConfusion h
      | jsonable =>
          refine ⟨fun hbt => by simp at hbt, fun _ => ?_⟩
          cases hl : loads s with
          | ok o =>
              simp only [bodyStep, hv, hr, hl, Except.ok.injEq] at h
              subst h
              exact ⟨o, by rw [dget_dset, if_pos rfl]⟩
          | error e =>
              simp only [bodyStep, hv, hr, hl] at h
              exact Except.noConfusion h
      | raw => exact ⟨fun hbt => by simp at hbt, fun hbt => by simp at hbt⟩
      | file => exact ⟨fun hbt => by simp at hbt, fun hbt => by simp at hbt⟩

theorem prb_dget_not_mem {MV JV M B OV : Type}
    (validate : ClsHandle M B → String → Except String MV)
    (loads : String → Except String JV) :
    ∀ (cfg : List (String × BodyType × Option (ClsHandle M B)))
      (kw : List (String × PyVal MV JV OV)) (n : String), n ∉ cfg.map Prod.fst →
      dget (parse_request_body validate loads cfg kw).2 n = dget kw n := by
  intro cfg
  induction cfg with
  | nil => intro kw n _; rfl
  | cons entry rest ih =>
      intro kw n h
      obtain ⟨pname, bt, mc⟩ := entry
      simp only [List.map_cons, List.mem_cons] at h
      push_neg at h
      cases hstep : bodyStep validate loads (pname, bt, mc) kw with
      | error r => simp only [parse_request_body, hstep]
      | ok kw1 =>
          simp only [parse_request_body, hstep]
          rw [ih kw1 n h.2,
            bodyStep_ok_dget_ne validate loads pname bt mc kw kw1 hstep n h.1]

theorem prb_none_decoded {MV JV M B OV : Type}
    (validate : ClsHandle M B → String → Except String MV)
    (loads : String → Except String JV) :
    ∀ (cfg : List (String × BodyType × Option (ClsHandle M B)))
      (kw : List (String × PyVal MV JV OV)),
      (cfg.map Prod.fst).Nodup →
      (∀ e ∈ cfg, e.2.1 = BodyType.pydantic → e.2.2 ≠ none) →
      (parse_request_body validate loads cfg kw).1 = none →
      ∀ e ∈ cfg, ∀ v, dget kw e.1 = some v → PyVal.rawContent v ≠ none →
        (e.2.1 = BodyType.pydantic →
          ∃ m, dget (parse_request_body validate loads cfg kw).2 e.1 =
            some (PyVal.model m)) ∧
        (e.2.1 = BodyType.jsonable →
          ∃ o, dget (parse_request_body validate loads cfg kw).2 e.1 =
            some (PyVal.obj o)) := by
  intro cfg
  induction cfg with
  | nil => intro kw _ _ _ e he; simp at he
  | cons entry rest ih =>
      intro kw hnd hwf hnone e he v hv hraw
      obtain ⟨pname, bt, mc⟩ := entry
      simp only [List.map_cons, List.nodup_cons] at hnd
      cases hstep : bodyStep validate loads (pname, bt, mc) kw with
      | error r =>
          simp only [parse_request_body, hstep] at hnone
          exact absurd hnone (by simp)
      | ok kw1 =>
          have hprb : parse_request_body validate loads ((pname, bt, mc) :: rest) kw =
              parse_request_body validate loads rest kw1 := by
            simp only [parse_request_body, hstep]
          rw [hprb] at hnone ⊢
          rcases List.mem_cons.mp he with hhead | htail
          · subst hhead
            have hdec := bodyStep_decoded validate loads pname bt mc kw kw1 hstep v hv hraw
            have hpres : dget (parse_request_body validate loads rest kw1).2 pname =
                dget kw1 pname :=
              prb_dget_not_mem validate loads rest kw1 pname hnd.1
            constructor
            · intro hbt
              obtain ⟨m, hm⟩ := hdec.1 hbt
                (hwf (pname, bt, mc) (List.mem_cons_self _ _) hbt)
              exact ⟨m, by rw [hpres]; exact hm⟩
            · intro hbt
              obtain ⟨o, ho⟩ := hdec.2 hbt
              exact ⟨o, by rw [hpres]; exact ho⟩
          · have hne : e.1 ≠ pname :=
              fun hc => hnd.1 (hc ▸ List.mem_map_of_mem Prod.fst htail)
            have hv1 : dget kw1 e.1 = some v := by
              rw [bodyStep_ok_dget_ne validate loads pname bt mc kw kw1 hstep e.1 hne]
              exact hv
            exact ih kw1 hnd.2 (fun e2 he2 => hwf e2 (List.mem_cons_of_mem _ he2))
              hnone e htail v hv1 hraw

theorem prb_some_shape {MV JV M B OV : Type}
    (validate : ClsHandle M B → String → Except String MV)
    (loads : String → Except String JV) :
    ∀ (cfg : List (String × BodyType × Option (ClsHandle M B)))
      (kw : List (String × PyVal MV JV OV)) (r : Response)
      (kwf : List (String × PyVal MV JV OV)),
      (cfg.map Prod.fst).Nodup →
      parse_request_body validate loads cfg kw = (some r, kwf) →
      r.status_code = 422 ∧ r.headers = [] ∧
      ∃ pre e post v s, cfg = pre ++ e :: post ∧ dget kw e.1 = some v ∧
        PyVal.rawContent v = some s ∧
        ((∃ mc0, e.2.1 = BodyType.pydantic ∧ e.2.2 = some mc0 ∧
            validate mc0 s = Except.error r.description) ∨
         (e.2.1 = BodyType.jsonable ∧ loads s = Except.error r.description)) ∧
        ∀ e2 ∈ post, dget kwf e2.1 = dget kw e2.1 := by
  intro cfg
  induction cfg with
  | nil => intro kw r kwf _ h; simp [parse_request_body] at h
  | cons entry rest ih =>
      intro kw r kwf hnd h
      obtain ⟨pname, bt, mc⟩ := entry
      simp only [List.map_cons, List.nodup_cons] at hnd
      cases hstep : bodyStep validate loads (pname, bt, mc) kw with
      | error r0 =>
          simp only [parse_request_body, hstep, Prod.mk.injEq, Option.some.injEq] at h
          obtain ⟨h1, h2⟩ := h
          subst h1
          subst h2
          have shape := bodyStep_error_shape validate loads pname bt mc kw r0 hstep
          obtain ⟨v, s, hv, hr2, hfail⟩ := shape.2.2
          exact ⟨shape.1, shape.2.1, [], (pname, bt, mc), rest, v, s, rfl, hv, hr2,
            hfail, fun e2 _ => rfl⟩
      | ok kw1 =>
          have hprb : parse_request_body validate loads ((pname, bt, mc) :: rest) kw =
              parse_request_body validate loads rest kw1 := by
            simp only [parse_request_body, hstep]
          rw [hprb] at h
          obtain ⟨h422, hhd, pre, e, post, v, s, hsplit, hv1, hraw, hfail, hpost⟩ :=
            ih kw1 r kwf hnd.2 h
          have hmem_e : e ∈ rest := by
            rw [hsplit]
            exact List.mem_append_right pre (List.mem_cons_self e post)
          have hne : e.1 ≠ pname :=
            fun hc => hnd.1 (hc ▸ List.mem_map_of_mem Prod.fst hmem_e)
          have hv0 : dget kw e.1 = some v := by
            rw [← bodyStep_ok_dget_ne validate loads pname bt mc kw kw1 hstep e.1 hne]
            exact hv1
          refine ⟨h422, hhd, (pname, bt, mc) :: pre, e, post, v, s,
            by rw [hsplit, List.cons_append], hv0, hraw, hfail, ?_⟩
          intro e2 he2
          have hmem2 : e2 ∈ rest := by
            rw [hsplit]
            exact List.mem_append_right pre (List.mem_cons_of_mem e he2)
          have hne2 : e2.1 ≠ pname :=
            fun hc => hnd.1 (hc ▸ List.mem_map_of_mem Prod.fst hmem2)
          rw [hpost e2 he2,
            bodyStep_ok_dget_ne validate loads pname bt mc kw kw1 hstep e2.1 hne2]

theorem wrapped_handler_of_body_error {MV JV M B OV : Type}
    (validate : ClsHandle M B → String → Except String MV)
    (loads : String → Except String JV)
    (modelDump : MV → String) (dumps : JV → String) (strOf : OV → String)
    (cfg : List (String × BodyType × Option (ClsHandle M B)))
    (file_params : List String) (has_request_param : Bool)
    (handler : List (String × PyVal MV JV OV) → HandlerResult MV JV OV)
    (request : RequestM) (kw : List (String × PyVal MV JV OV))
    (r : Response) (kwf : List (String × PyVal MV JV OV))
    (h : parse_request_body validate loads cfg kw = (some r, kwf)) :
    wrapped_handler validate loads modelDump dumps strOf cfg file_params
      has_request_param handler request kw = r := by
  simp only [wrapped_handler, h]

/-! ### File-parameter lemmas -/

theorem dget_foldl_dset_not_mem {α : Type} (v : α) :
    ∀ (ps : List String) (kw : List (String × α)) (p : String), p ∉ ps →
      dget (ps.foldl (fun k q => dset k q v) kw) p = dget kw p := by
  intro ps
  induction ps with
  | nil => intro kw p _; rfl
  | cons q rest ih =>
      intro kw p hp
      simp only [List.mem_cons] at hp
      push_neg at hp
      simp only [List.foldl_cons]
      rw [ih (dset kw q v) p hp.2, dget_dset, if_neg (fun hc => hp.1 hc.symm)]

theorem dget_foldl_dset_mem {α : Type} (v : α) :
    ∀ (ps : List String) (kw : List (String × α)) (p : String), p ∈ ps →
      dget (ps.foldl (fun k q => dset k q v) kw) p = some v := by
  intro ps
  induction ps with
  | nil => intro kw p hp; simp at hp
  | cons q rest ih =>
      intro kw p hp
      simp only [List.foldl_cons]
      by_cases hrest : p ∈ rest
      · exact ih (dset kw q v) p hrest
      · rcases List.mem_cons.mp hp with h | h
        · subst h
          rw [dget_foldl_dset_not_mem v rest (dset kw p v) p hrest, dget_dset,
            if_pos rfl]
        · exact absurd h hrest

/-! ### Claim theorems: router -/

/-- C3: request marshaling either succeeds with every classified raw
parameter decoded to its typed value, or stops at the first failing
parameter with exactly one 422 response, leaving later parameters
untouched and never invoking the handler.  The hypotheses record the two
invariants the classifier guarantees about real configs: parameter names
are unique (the config is a dict) and schema entries always carry a
schema handle. -/
theorem C3_request_marshaling {MV JV M B OV : Type}
    (validate : ClsHandle M B → String → Except String MV)
    (loads : String → Except String JV)
    (cfg : List (String × BodyType × Option (ClsHandle M B)))
    (kwargs : List (String × PyVal MV JV OV))
    (hnd : (cfg.map Prod.fst).Nodup)
    (hwf : ∀ e ∈ cfg, e.2.1 = BodyType.pydantic → e.2.2 ≠ none) :
    MarshalSpec validate loads cfg kwargs := by
  constructor
  · exact prb_none_decoded validate loads cfg kwargs hnd hwf
  · intro r kwf h
    have shape := prb_some_shape validate loads cfg kwargs r kwf hnd h
    exact ⟨shape.1,
      fun mD dp sO fp hrq hdl req =>
        wrapped_handler_of_body_error validate loads mD dp sO cfg fp hrq hdl req
          kwargs r kwf h,
      shape.2.2⟩

/-- C3 witness: the property instantiated at a one-entry generic-JSON
config with concrete decoders. -/
theorem C3_request_marshaling_witness :
    MarshalSpec
      (fun (_ : ClsHandle Unit Unit) (s : String) =>
        if s = "good" then Except.ok (1 : Nat) else Except.error "vErr")
      (fun s => if s = "null" then Except.ok (0 : Nat) else Except.error "jErr")
      [("body", BodyType.jsonable, none)]
      [("body", (PyVal.str "null" : PyVal Nat Nat Unit))] :=
  C3_request_marshaling _ _ _ _ (by decide) (by decide)

/-- C4: the response coercer is total — every handler result yields a
response — and follows the four coercion rules: `Response` values pass
through unchanged, model instances and dicts become 200 JSON responses
carrying their serialization, and anything else becomes a 200 response
with no content-type header and the value's string form as body. -/
theorem C4_response_total {MV JV OV : Type}
    (modelDump : MV → String) (dumps : JV → String) (strOf : OV → String) :
    (∀ result : HandlerResult MV JV OV,
      ∃ resp, parse_response modelDump dumps strOf result = resp) ∧
    (∀ r, parse_response modelDump dumps strOf (HandlerResult.response r) = r) ∧
    (∀ m, parse_response modelDump dumps strOf (HandlerResult.model m) =
      { status_code := 200, headers := [("content-type", "application/json")],
        description := modelDump m }) ∧
    (∀ o, parse_response modelDump dumps strOf (HandlerResult.obj o) =
      { status_code := 200, headers := [("content-type", "application/json")],
        description := dumps o }) ∧
    (∀ x, parse_response modelDump dumps strOf (HandlerResult.other x) =
      { status_code := 200, headers := [], description := strOf x }) :=
  ⟨fun result => ⟨parse_response modelDump dumps strOf result, rfl⟩,
    fun _ => rfl, fun _ => rfl, fun _ => rfl, fun _ => rfl⟩

/-- C6: a declared parameter named exactly `body` whose annotation is
unrecognized — any type outside the recognized ones, or no annotation at
all — is classified generic-JSON with no schema handle. -/
theorem C6_untyped_body_generic_json {M B O : Type}
    (params : List (String × Ann M B O))
    (pre post : List (String × Ann M B O)) (ann : Ann M B O)
    (hnd : (params.map Prod.fst).Nodup)
    (hsplit : params = pre ++ ("body", ann) :: post)
    (hunrec : ann = Ann.empty ∨ ∃ t, ann = Ann.otherType t) :
    dget (parse_endpoint_signature params).1 "body" =
      some (BodyType.jsonable, none) := by
  subst hsplit
  revert hnd
  induction pre with
  | nil =>
      intro _
      rcases hunrec with h | ⟨t, h⟩ <;> subst h <;>
        simp [parse_endpoint_signature, dget]
  | cons hd pre2 ih =>
      intro hnd
      obtain ⟨n0, a0⟩ := hd
      have hbody_mem : ("body" : String) ∈ (pre2 ++ ("body", ann) :: post).map Prod.fst := by
        rw [List.map_append]
        exact List.mem_append_right _ (by simp)
      simp only [List.cons_append, List.map_cons, List.nodup_cons] at hnd
      have hnb : ¬ (n0 = "body") := fun h => hnd.1 (h ▸ hbody_mem)
      have hrec := ih hnd.2
      cases a0 <;> simp [parse_endpoint_signature, dget, hnb, hrec]

/-- C6 witness: a two-parameter signature with an untyped `body`. -/
theorem C6_untyped_body_generic_json_witness :
    dget (parse_endpoint_signature
      [("request", (Ann.otherType 0 : Ann Nat Nat Nat)), ("body", Ann.empty)]).1
      "body" = some (BodyType.jsonable, none) :=
  C6_untyped_body_generic_json
    [("request", (Ann.otherType 0 : Ann Nat Nat Nat)), ("body", Ann.empty)]
    [("request", Ann.otherType 0)] [] Ann.empty (by decide) rfl (Or.inl rfl)

/-- C7: a handler with file parameters, called with no uploaded files,
gets the 422 missing-files response with JSON content type whose
`required` list is exactly the file-parameter names, and the handler is
never invoked. -/
theorem C7_missing_files {MV JV OV : Type} (fileParams : List String)
    (request : RequestM) (kwargs : List (String × PyVal MV JV OV))
    (hfp : fileParams ≠ []) (hnf : request.files = []) :
    FileMissingSpec fileParams request kwargs := by
  have hfe : fileParams.isEmpty = false := by
    cases fileParams with
    | nil => exact absurd rfl hfp
    | cons a t => rfl
  have hkey : ∀ kw : List (String × PyVal MV JV OV),
      parse_request_files fileParams request kw =
        (some { status_code := 422,
                headers := [("content-type", "application/json")],
                description := missingFilesBody fileParams }, kw) := by
    intro kw
    simp [parse_request_files, hfe, hnf]
  refine ⟨_, hkey kwargs, rfl, rfl, rfl, ?_⟩
  intro M B validate loads modelDump dumps strOf cfg hrq handler kw1 hbody
  simp only [wrapped_handler, hbody, hfe, Bool.false_eq_true, if_false, hkey kw1]

/-- C7 witness: one file parameter, no uploaded files. -/
theorem C7_missing_files_witness :
    FileMissingSpec ["doc"] { files := [] }
      ([] : List (String × PyVal Nat Nat Nat)) :=
  C7_missing_files ["doc"] { files := [] }
    ([] : List (String × PyVal Nat Nat Nat)) (by decide) rfl

/-- C10: a handler with file parameters, called with at least one
uploaded file, succeeds with every file parameter bound to an
`UploadFile` wrapping the entire uploaded-file mapping, not just the
field matching the parameter name. -/
theorem C10_file_binding {MV JV OV : Type} (fileParams : List String)
    (request : RequestM) (kwargs : List (String × PyVal MV JV OV))
    (hfp : fileParams ≠ []) (hf : request.files ≠ []) :
    FileBindSpec fileParams request kwargs := by
  have hfe : fileParams.isEmpty = false := by
    cases fileParams with
    | nil => exact absurd rfl hfp
    | cons a t => rfl
  have hre : request.files.isEmpty = false := by
    cases hrf : request.files with
    | nil => exact absurd hrf hf
    | cons a t => rfl
  have hkey : parse_request_files fileParams request kwargs =
      (none, fileParams.foldl
        (fun kw p => dset kw p (PyVal.upload { files := request.files })) kwargs) := by
    simp [parse_request_files, hfe, hre]
  exact ⟨_, hkey, fun p hp =>
    dget_foldl_dset_mem (PyVal.upload { files := request.files }) fileParams kwargs p hp⟩

/-- C10 witness: one file parameter and one uploaded file under a
different field name; the parameter still receives the whole mapping. -/
theorem C10_file_binding_witness :
    FileBindSpec ["doc"] { files := [("attachment", "payload")] }
      ([] : List (String × PyVal Nat Nat Nat)) :=
  C10_file_binding ["doc"] { files := [("attachment", "payload")] }
    ([] : List (String × PyVal Nat Nat Nat)) (by decide) (by decide)

end RML
